import Mathlib

/-!
Verification development for the citation-cluster sorting component
(sort-citations.py).  The Python source is shallowly embedded: pure
functions become Lean functions, JSON values become an inductive type,
and the external libraries (unicodedata, pypinyin, the filesystem) are
modelled as explicit parameter structures, since their behaviour is not
part of this repository.
-/

namespace SortCitations

/-- JSON values as produced by json.load.  Booleans do not occur in the
inputs relevant here and are omitted. -/
inductive JVal where
  | null
  | int (i : Int)
  | str (s : String)
  | list (xs : List JVal)
  | obj (kvs : List (String × JVal))

/-- Python truthiness of a JSON value (None, 0, empty string, empty
list and empty dict are falsy). -/
def truthy : JVal → Bool
  | .null => false
  | .int i => i != 0
  | .str s => s != ""
  | .list xs => !xs.isEmpty
  | .obj kvs => !kvs.isEmpty

/-- Python dict .get on a JSON object (keys are unique in parsed JSON,
so the first binding is the binding). -/
def jget (kvs : List (String × JVal)) (k : String) : Option JVal :=
  List.lookup k kvs

/-- The external library surface used by the component: unicodedata
(NFKD decomposition, combining-mark test), the Python regex whitespace
class, str.lower, and the pypinyin default tonal reading of a single
character (empty when the character has no reading, matching the
errors ignore mode). -/
structure Env where
  nfkd : String → String
  isComb : Char → Bool
  isSpace : Char → Bool
  lower : String → String
  readChar : Char → String

/-- Replace every whitespace run by a single space (re.sub of a
whitespace-class run with one space). -/
def collapseWs (isSpace : Char → Bool) (cs : List Char) : List Char :=
  ((cs.foldl (fun (acc : List Char × Bool) c =>
      if isSpace c then (if acc.2 then acc else (' ' :: acc.1, true))
      else (c :: acc.1, false)) ([], false)).1).reverse

/-- Python str.strip after the whitespace collapse: the only remaining
whitespace characters are single spaces, so stripping removes spaces
from both ends. -/
def trimSpaces (cs : List Char) : List Char :=
  ((cs.dropWhile (fun c => c = ' ')).reverse.dropWhile (fun c => c = ' ')).reverse

/-- normalize from the source: NFKD-decompose, drop combining marks,
collapse whitespace runs, strip the ends, lowercase. -/
def normalize (env : Env) (text : String) : String :=
  if text = "" then ""
  else
    let withoutMarks := (env.nfkd text).data.filter (fun c => !env.isComb c)
    env.lower (String.mk (trimSpaces (collapseWs env.isSpace withoutMarks)))

/-- SURNAME_MAP from the source: surnames whose reading differs from
the default reading of the standalone character. -/
def SURNAME_MAP : List (Char × String) :=
  [('葛', "ge3"), ('阚', "kan4"), ('区', "ou1"), ('朴', "piao2"),
   ('覃', "qin2"), ('仇', "qiu2"), ('任', "ren2"), ('单', "shan4"),
   ('解', "xie4"), ('燕', "yan1"), ('尉', "yu4"), ('乐', "yue4"),
   ('曾', "zeng1"), ('查', "zha1")]

/-- contains_chinese from the source: some code point lies in the CJK
Unified Ideographs range. -/
def contains_chinese (text : String) : Bool :=
  text.data.any (fun c => decide ('一' ≤ c ∧ c ≤ '鿿'))

/-- Concatenation of the default readings of a character list: the
join over the groups returned by the pypinyin call (characters without
a reading contribute nothing, per the errors ignore mode). -/
def concatReadings (env : Env) : List Char → String
  | [] => ""
  | c :: rest => env.readChar c ++ concatReadings env rest

/-- to_pinyin from the source.  The pypinyin call on the whole string
concatenates the default reading of every character; if the first
character is a SURNAME_MAP surname with a nonempty reading, that
leading reading is sliced off and replaced by the override. -/
def to_pinyin (env : Env) (text : String) : String :=
  if text = "" then ""
  else
    let joined := concatReadings env text.data
    if joined = "" then normalize env text
    else
      match text.data with
      | [] => joined
      | c0 :: _ =>
        match List.lookup c0 SURNAME_MAP with
        | none => joined
        | some ov =>
          if env.readChar c0 = "" then joined
          else ov ++ String.mk (joined.data.drop (env.readChar c0).length)

/-- First run of four consecutive decimal digits in a character list,
as an integer (re.search of a four-digit group). -/
def scan4 : List Char → Option Int
  | a :: b :: c :: d :: rest =>
    if a.isDigit && b.isDigit && c.isDigit && d.isDigit then
      some (Int.ofNat
        (((a.toNat - 48) * 1000) + ((b.toNat - 48) * 100) +
         ((c.toNat - 48) * 10) + (d.toNat - 48)))
    else scan4 (b :: c :: d :: rest)
  | _ => none

/-- Decimal value of an all-digit character list (Python int on a
digit string). -/
def parseDigits (cs : List Char) : Nat :=
  cs.foldl (fun acc c => acc * 10 + (c.toNat - 48)) 0

/-- The body shared by the dict and list branches of from_obj in
extract_year: a nonempty list yields its head (unwrapped once if it is
itself a nonempty list) when that is an integer or an all-digit
string; a string is searched for a four-digit run; everything else
yields nothing. -/
def fromParts : JVal → Option Int
  | .list (f :: _) =>
    let first := match f with
      | .list (g :: _) => g
      | _ => f
    (match first with
     | .int i => some i
     | .str s => if s ≠ "" ∧ s.data.all Char.isDigit then some (Int.ofNat (parseDigits s.data)) else none
     | _ => none)
  | .str s => scan4 s.data
  | _ => none

/-- from_obj from extract_year: a dict selects date-parts (or, when
that is falsy, literal) and processes it; a nonempty list is treated
as the date-parts themselves; a string is searched for a four-digit
run. -/
def from_obj : JVal → Option Int
  | .obj kvs =>
    let dp := (jget kvs "date-parts").getD .null
    let parts := if truthy dp then dp else (jget kvs "literal").getD .null
    fromParts parts
  | .list (x :: xs) => fromParts (.list (x :: xs))
  | .str s => scan4 s.data
  | _ => none

/-- The loop of extract_year: the first field, in priority order,
whose from_obj value is a truthy (nonzero) integer. -/
def firstTruthyYear (entry : List (String × JVal)) : List String → Option Int
  | [] => none
  | k :: ks =>
    match from_obj ((jget entry k).getD .null) with
    | some y => if y ≠ 0 then some y else firstTruthyYear entry ks
    | none => firstTruthyYear entry ks

/-- extract_year from the source: fields tried in priority order, with
sentinel 9999 when none yields a truthy year. -/
def extract_year (entry : List (String × JVal)) : Int :=
  (firstTruthyYear entry
    ["issued", "original-date", "event-date", "year", "date"]).getD 9999

/-- Composite sort key type: the Python tuple
(localeGroup, authorKey, year, titleKey, originalPosition) compared
lexicographically, as Python compares tuples. -/
abbrev SKey := Lex (Nat × Lex (String × Lex (Int × Lex (String × Nat))))

/-- Build a composite key from its five components. -/
def mkKey (g : Nat) (a : String) (y : Int) (t : String) (p : Nat) : SKey :=
  toLex (g, toLex (a, toLex (y, toLex (t, p))))

/-- The per-id sort information computed by prepare:
(isChinese, authorKey, year, titleKey). -/
abbrev SortInfo := List (String × (Bool × String × Int × String))

/-- sort_key from the source: an id present in the sort information
uses its stored components (group 1 when Chinese); an absent id falls
back to group 0 with the normalized id as both author and title key
and the sentinel year 9999. -/
def sort_key (env : Env) (si : SortInfo) (cid : String) (originalIndex : Nat) : SKey :=
  match List.lookup cid si with
  | none =>
    let fallback := normalize env cid
    mkKey 0 fallback 9999 fallback originalIndex
  | some info =>
    mkKey (if info.1 then 1 else 0) info.2.1 info.2.2.1 info.2.2.2 originalIndex

/-- The locale-group component of the key an id receives. -/
def localeGroup (si : SortInfo) (cid : String) : Nat :=
  match List.lookup cid si with
  | none => 0
  | some info => if info.1 then 1 else 0

/-- The author-key component of the key an id receives. -/
def authorOf (env : Env) (si : SortInfo) (cid : String) : String :=
  match List.lookup cid si with
  | none => normalize env cid
  | some info => info.2.1

/-- The year component of the key an id receives. -/
def yearOf (si : SortInfo) (cid : String) : Int :=
  match List.lookup cid si with
  | none => 9999
  | some info => info.2.2.1

/-- The title-key component of the key an id receives. -/
def titleOf (env : Env) (si : SortInfo) (cid : String) : String :=
  match List.lookup cid si with
  | none => normalize env cid
  | some info => info.2.2.2

/-- One cited reference inside a citation cluster: its id and its own
attached inline content before and after the id (panflute Citation;
inline elements are an arbitrary type). -/
structure Citation (α : Type) where
  id : String
  pfx : List α
  sfx : List α

/-- A citation cluster (panflute Cite node). -/
structure Cite (α : Type) where
  citations : List (Citation α)

/-- The detach step of action: when the first reference carries inline
content before its id (the cluster-level content), remove and hold it. -/
def detach {α : Type} : List (Citation α) → List α × List (Citation α)
  | [] => ([], [])
  | c :: rest =>
    if c.pfx.isEmpty then ([], c :: rest)
    else (c.pfx, { c with pfx := [] } :: rest)

/-- restore_prefix from the source: prepend held cluster-level content
to the first reference of a nonempty cluster. -/
def restorePfx {α : Type} (held : List α) (cits : List (Citation α)) : List (Citation α) :=
  match held, cits with
  | _ :: _, c :: rest => { c with pfx := held ++ c.pfx } :: rest
  | _, cits => cits

/-- The key of an (originalIndex, citation) pair. -/
def pairKey {α : Type} (env : Env) (si : SortInfo) (p : Nat × Citation α) : SKey :=
  sort_key env si p.2.id p.1

/-- The comparison the sort uses on enumerated references. -/
def keyLE {α : Type} (env : Env) (si : SortInfo) (p q : Nat × Citation α) : Prop :=
  pairKey env si p ≤ pairKey env si q

/-- Strict version of the key comparison. -/
def keyLT {α : Type} (env : Env) (si : SortInfo) (p q : Nat × Citation α) : Prop :=
  pairKey env si p < pairKey env si q

instance {α : Type} (env : Env) (si : SortInfo) :
    DecidableRel (keyLE (α := α) env si) :=
  fun _ _ => inferInstanceAs (Decidable (_ ≤ _))

instance {α : Type} (env : Env) (si : SortInfo) :
    IsTotal (Nat × Citation α) (keyLE env si) :=
  ⟨fun _ _ => le_total _ _⟩

instance {α : Type} (env : Env) (si : SortInfo) :
    IsTrans (Nat × Citation α) (keyLE env si) :=
  ⟨fun _ _ _ h1 h2 => le_trans h1 h2⟩

/-- The stable sort of the enumerated references by their composite
keys (Python sorted with the sort_key function). -/
def sortPairs {α : Type} (env : Env) (si : SortInfo) (cits : List (Citation α)) :
    List (Nat × Citation α) :=
  List.insertionSort (keyLE env si) cits.enum

/-- action from the source: clusters with fewer than two references
are returned unchanged; otherwise the cluster-level content is
detached, the enumerated references are sorted by composite key, the
references are written back in sorted order, and the held content is
prepended to the new first reference. -/
def action {α : Type} (env : Env) (si : SortInfo) (el : Cite α) : Cite α :=
  if el.citations.length < 2 then el
  else
    let d := detach el.citations
    if d.2.enum.length < 2 then ⟨restorePfx d.1 d.2⟩
    else ⟨restorePfx d.1 ((sortPairs env si d.2).map (fun p => p.2))⟩

/-- The filesystem and path-resolution surface used by load_entries:
resolve is the expanduser and make-absolute step, pathExists is
os.path.exists, read is open plus json.load with none for an OSError
or a JSON decode error. -/
structure FS where
  resolve : String → String
  pathExists : String → Bool
  read : String → Option JVal

/-- The uncaught exceptions the record loop of load_entries can raise:
iterating a non-iterable JSON value, or calling .get on a non-dict
record. -/
inductive LoadErr where
  | typeError
  | attributeError

/-- Processing of one parsed record: a dict record with a truthy id
that is kept (the cited-id set is empty, or contains the id) is added,
later records overriding earlier ones via last-binding lookup; a
non-dict record raises AttributeError. -/
def processRecord (keepIds : List String) (entries : List (JVal × JVal)) :
    JVal → Except LoadErr (List (JVal × JVal))
  | .obj kvs =>
    let eid := (jget kvs "id").getD .null
    let kept := keepIds.isEmpty ||
      (match eid with
       | .str s => keepIds.contains s
       | _ => false)
    if truthy eid && kept then .ok (entries ++ [(eid, .obj kvs)])
    else .ok entries
  | _ => .error .attributeError

/-- The record loop over one parsed file. -/
def foldRecords (keepIds : List String) (entries : List (JVal × JVal)) :
    List JVal → Except LoadErr (List (JVal × JVal))
  | [] => .ok entries
  | r :: rs =>
    match processRecord keepIds entries r with
    | .error e => .error e
    | .ok entries' => foldRecords keepIds entries' rs

/-- The case-insensitive json-suffix test on a path: the lowered path
ends with the five characters of the json suffix (str.lower modelled
characterwise, which agrees with Python on path characters). -/
def hasJsonSuffix (path : String) : Bool :=
  ".json".data.isSuffixOf (path.data.map Char.toLower)

/-- Processing of one configured bibliography path: empty strings are
skipped, the path is resolved, paths that do not exist or do not end
in a json suffix (case-insensitively) are skipped, unreadable or
unparseable files are skipped, a dict result is wrapped into a
one-record list, a falsy result contributes nothing, and iterating a
truthy non-list result raises (TypeError for a number, AttributeError
for the string characters). -/
def processPath (fs : FS) (keepIds : List String) (entries : List (JVal × JVal))
    (raw : String) : Except LoadErr (List (JVal × JVal)) :=
  if raw = "" then .ok entries
  else
    let path := fs.resolve raw
    if !fs.pathExists path || !hasJsonSuffix path then .ok entries
    else
      match fs.read path with
      | none => .ok entries
      | some data =>
        match data with
        | .obj kvs => foldRecords keepIds entries [.obj kvs]
        | .list xs => foldRecords keepIds entries xs
        | .null => .ok entries
        | .int i => if i = 0 then .ok entries else .error .typeError
        | .str s => if s = "" then .ok entries else .error .attributeError

/-- The path loop of load_entries. -/
def loadLoop (fs : FS) (keepIds : List String) :
    List String → List (JVal × JVal) → Except LoadErr (List (JVal × JVal))
  | [], entries => .ok entries
  | raw :: rest, entries =>
    match processPath fs keepIds entries raw with
    | .error e => .error e
    | .ok entries' => loadLoop fs keepIds rest entries'

/-- load_entries from the source, over the configured path list. -/
def load_entries (fs : FS) (paths : List String) (keepIds : List String) :
    Except LoadErr (List (JVal × JVal)) :=
  loadLoop fs keepIds paths []

/-! ### Lemmas about composite keys -/

theorem mkKey_le_mkKey {g G : Nat} {a A : String} {y Y : Int} {t T : String} {p P : Nat} :
    mkKey g a y t p ≤ mkKey G A Y T P ↔
      g < G ∨ g = G ∧ (a < A ∨ a = A ∧ (y < Y ∨ y = Y ∧ (t < T ∨ t = T ∧ p ≤ P))) := by
  simp [mkKey, Prod.Lex.le_iff]

theorem mkKey_lt_mkKey {g G : Nat} {a A : String} {y Y : Int} {t T : String} {p P : Nat} :
    mkKey g a y t p < mkKey G A Y T P ↔
      g < G ∨ g = G ∧ (a < A ∨ a = A ∧ (y < Y ∨ y = Y ∧ (t < T ∨ t = T ∧ p < P))) := by
  simp [mkKey, Prod.Lex.lt_iff]

theorem mkKey_inj {g G : Nat} {a A : String} {y Y : Int} {t T : String} {p P : Nat} :
    mkKey g a y t p = mkKey G A Y T P ↔ g = G ∧ a = A ∧ y = Y ∧ t = T ∧ p = P := by
  simp [mkKey, toLex_inj, Prod.ext_iff]

theorem sort_key_eq (env : Env) (si : SortInfo) (cid : String) (i : Nat) :
    sort_key env si cid i =
      mkKey (localeGroup si cid) (authorOf env si cid) (yearOf si cid) (titleOf env si cid) i := by
  unfold sort_key localeGroup authorOf yearOf titleOf
  cases List.lookup cid si <;> rfl

theorem localeGroup_le_one (si : SortInfo) (cid : String) : localeGroup si cid ≤ 1 := by
  cases h : List.lookup cid si with
  | none => simp [localeGroup, h]
  | some info =>
    simp only [localeGroup, h]
    split <;> omega

theorem sort_key_pos_inj {env : Env} {si : SortInfo} {c d : String} {i j : Nat}
    (h : sort_key env si c i = sort_key env si d j) : i = j := by
  rw [sort_key_eq, sort_key_eq, mkKey_inj] at h
  exact h.2.2.2.2

theorem grp_le_of_keyLE {α : Type} {env : Env} {si : SortInfo} {p q : Nat × Citation α}
    (h : keyLE env si p q) : localeGroup si p.2.id ≤ localeGroup si q.2.id := by
  unfold keyLE pairKey at h
  rw [sort_key_eq, sort_key_eq, mkKey_le_mkKey] at h
  rcases h with h | ⟨h, _⟩
  · exact le_of_lt h
  · exact le_of_eq h

/-! ### Lemmas about the cluster rewriting steps -/

theorem detach_snd_ids {α : Type} (l : List (Citation α)) :
    (detach l).2.map (fun c => c.id) = l.map (fun c => c.id) := by
  cases l with
  | nil => rfl
  | cons c rest =>
    by_cases h : c.pfx.isEmpty
    · simp [detach, h]
    · simp [detach, h]

theorem detach_snd_length {α : Type} (l : List (Citation α)) :
    (detach l).2.length = l.length := by
  have h := congrArg List.length (detach_snd_ids l)
  simpa using h

theorem restorePfx_ids {α : Type} (held : List α) (l : List (Citation α)) :
    (restorePfx held l).map (fun c => c.id) = l.map (fun c => c.id) := by
  cases held <;> cases l <;> simp [restorePfx]

theorem restorePfx_pairwise_grp {α : Type} (si : SortInfo) (held : List α)
    (l : List (Citation α))
    (h : l.Pairwise (fun a b => localeGroup si a.id ≤ localeGroup si b.id)) :
    (restorePfx held l).Pairwise (fun a b => localeGroup si a.id ≤ localeGroup si b.id) := by
  cases held with
  | nil => exact h
  | cons q qs =>
    cases l with
    | nil => exact h
    | cons c rest =>
      rw [List.pairwise_cons] at h
      rw [restorePfx, List.pairwise_cons]
      exact ⟨fun b hb => h.1 b hb, h.2⟩

theorem sortPairs_sorted {α : Type} (env : Env) (si : SortInfo) (cits : List (Citation α)) :
    List.Sorted (keyLE env si) (sortPairs env si cits) :=
  List.sorted_insertionSort (keyLE env si) cits.enum

theorem sortPairs_perm {α : Type} (env : Env) (si : SortInfo) (cits : List (Citation α)) :
    List.Perm (sortPairs env si cits) cits.enum :=
  List.perm_insertionSort (keyLE env si) cits.enum

theorem action_eq_sort {α : Type} (env : Env) (si : SortInfo) (el : Cite α)
    (h2 : 2 ≤ el.citations.length) :
    action env si el =
      ⟨restorePfx (detach el.citations).1
        ((sortPairs env si (detach el.citations).2).map (fun p => p.2))⟩ := by
  have h1 : ¬ el.citations.length < 2 := Nat.not_lt.mpr h2
  have h2' : ¬ (detach el.citations).2.enum.length < 2 := by
    rw [List.enum_length, detach_snd_length]; exact h1
  simp only [action, if_neg h1, if_neg h2']

/-- Splitting a zero-one valued, monotone-along-the-list sequence into
the zero block followed by the one block. -/
theorem pairwise_split_01 {β : Type} (g : β → Nat) (l : List β)
    (hb : ∀ b ∈ l, g b ≤ 1) (hp : l.Pairwise (fun a b => g a ≤ g b)) :
    ∃ l0 l1, l = l0 ++ l1 ∧ (∀ c ∈ l0, g c = 0) ∧ (∀ c ∈ l1, g c = 1) := by
  induction l with
  | nil => exact ⟨[], [], rfl, by simp, by simp⟩
  | cons c t ih =>
    rw [List.pairwise_cons] at hp
    rcases Nat.lt_or_ge (g c) 1 with h0 | h1
    · obtain ⟨l0, l1, heq, h00, h11⟩ :=
        ih (fun b hb' => hb b (List.mem_cons_of_mem c hb')) hp.2
      refine ⟨c :: l0, l1, by rw [heq, List.cons_append], ?_, h11⟩
      intro d hd
      rcases List.mem_cons.mp hd with rfl | hd'
      · omega
      · exact h00 d hd'
    · have hc1 : g c = 1 := le_antisymm (hb c (List.mem_cons_self c t)) h1
      refine ⟨[], c :: t, rfl, by simp, ?_⟩
      intro d hd
      rcases List.mem_cons.mp hd with rfl | hd'
      · exact hc1
      · have : g c ≤ g d := hp.1 d hd'
        have : g d ≤ 1 := hb d (List.mem_cons_of_mem c hd')
        omega

theorem pairKey_pos_inj {α : Type} {env : Env} {si : SortInfo} {p q : Nat × Citation α}
    (h : pairKey env si p = pairKey env si q) : p.1 = q.1 := by
  unfold pairKey at h
  rw [sort_key_eq, sort_key_eq, mkKey_inj] at h
  exact h.2.2.2.2

theorem nodup_fst_of_perm_enum {α : Type} {t : List (Nat × Citation α)}
    {cits : List (Citation α)} (h : List.Perm t cits.enum) :
    (t.map Prod.fst).Nodup := by
  have hperm : List.Perm (t.map Prod.fst) (cits.enum.map Prod.fst) := h.map Prod.fst
  rw [List.enum_map_fst] at hperm
  exact (List.Perm.nodup_iff hperm).mpr (List.nodup_range _)

theorem pairwise_lt_of_pairwise_le {α : Type} {env : Env} {si : SortInfo} :
    ∀ {t : List (Nat × Citation α)}, t.Pairwise (keyLE env si) →
      (t.map Prod.fst).Nodup → t.Pairwise (keyLT env si) := by
  intro t
  induction t with
  | nil => intro _ _; exact List.Pairwise.nil
  | cons a rest ih =>
    intro hle hnd
    rw [List.pairwise_cons] at hle
    rw [List.map_cons, List.nodup_cons] at hnd
    rw [List.pairwise_cons]
    refine ⟨?_, ih hle.2 hnd.2⟩
    intro b hb
    have h1 : keyLE env si a b := hle.1 b hb
    have h2 : pairKey env si a ≠ pairKey env si b := by
      intro hk
      exact hnd.1 (by
        rw [pairKey_pos_inj hk]
        exact List.mem_map_of_mem Prod.fst hb)
    exact lt_of_le_of_ne h1 h2

instance {α : Type} (env : Env) (si : SortInfo) :
    IsAntisymm (Nat × Citation α) (keyLT env si) :=
  ⟨fun _ _ h1 h2 => ((lt_asymm h1) h2).elim⟩

/-! ### Claim theorems -/

/-- C1: in every cluster of at least two references processed by the
reorderer, the output reference list splits into a block whose ids all
have locale group 0 (non-Chinese, including ids absent from the sort
information) followed by a block whose ids all have locale group 1
(Chinese), so every group-0 reference appears before every group-1
reference. -/
theorem c1_nonChinese_before_chinese {α : Type} (env : Env) (si : SortInfo) (el : Cite α)
    (h2 : 2 ≤ el.citations.length) :
    ∃ l0 l1, (action env si el).citations = l0 ++ l1 ∧
      (∀ c ∈ l0, localeGroup si c.id = 0) ∧ (∀ c ∈ l1, localeGroup si c.id = 1) := by
  rw [action_eq_sort env si el h2]
  exact pairwise_split_01 (fun c : Citation α => localeGroup si c.id) _
    (fun b _ => localeGroup_le_one si b.id)
    (restorePfx_pairwise_grp si _ _
      (List.Pairwise.map _ (fun p q h => grp_le_of_keyLE h)
        (sortPairs_sorted env si (detach el.citations).2)))

/-- C2: for a cluster of at least two references, the sorted order and
every reference's own metadata are independent of the first
reference's cluster-level leading inline content, and that content is
prepended exactly once to whichever reference ends up first after
sorting. -/
theorem c2_cluster_level_content {α : Type} (env : Env) (si : SortInfo) (c : Citation α)
    (rest : List (Citation α)) (hrest : rest ≠ []) :
    ∃ x t, (action env si ⟨{ c with pfx := [] } :: rest⟩).citations = x :: t ∧
      ∀ p : List α, p ≠ [] →
        (action env si ⟨{ c with pfx := p } :: rest⟩).citations =
          { x with pfx := p ++ x.pfx } :: t := by
  obtain ⟨r0, rs, rfl⟩ := List.exists_cons_of_ne_nil hrest
  obtain ⟨x, t, hM⟩ : ∃ x t,
      (sortPairs env si ({ c with pfx := ([] : List α) } :: r0 :: rs)).map (fun p => p.2) =
        x :: t := by
    cases hc : (sortPairs env si ({ c with pfx := ([] : List α) } :: r0 :: rs)).map
        (fun p => p.2) with
    | nil =>
      exfalso
      have hl := congrArg List.length hc
      rw [List.length_map, (sortPairs_perm env si _).length_eq, List.enum_length] at hl
      simp at hl
    | cons x t => exact ⟨x, t, rfl⟩
  have h2 : 2 ≤ (({ c with pfx := ([] : List α) } :: r0 :: rs) : List (Citation α)).length := by
    simp only [List.length_cons]
    omega
  refine ⟨x, t, ?_, ?_⟩
  · rw [action_eq_sort env si ⟨{ c with pfx := ([] : List α) } :: r0 :: rs⟩ h2]
    have hd : detach ({ c with pfx := ([] : List α) } :: r0 :: rs) =
        (([] : List α), { c with pfx := ([] : List α) } :: r0 :: rs) := by
      simp [detach]
    rw [hd]
    exact hM
  · intro p hp
    obtain ⟨q, qs, rfl⟩ := List.exists_cons_of_ne_nil hp
    have h2' : 2 ≤ (({ c with pfx := q :: qs } :: r0 :: rs) : List (Citation α)).length := by
      simp only [List.length_cons]
      omega
    rw [action_eq_sort env si ⟨{ c with pfx := q :: qs } :: r0 :: rs⟩ h2']
    have hd' : detach ({ c with pfx := q :: qs } :: r0 :: rs) =
        (q :: qs, { c with pfx := ([] : List α) } :: r0 :: rs) := by
      simp [detach]
    rw [hd']
    dsimp only
    rw [hM]
    rfl

/-- C3: the sort over the enumerated references of a cluster is a
permutation, strictly increasing in the composite key (hence a total,
deterministic order), stable in the sense that references whose first
four key components agree keep their original relative order, and the
sorted permutation is the unique key-nondecreasing permutation of the
enumerated input. -/
theorem c3_stable_total_deterministic {α : Type} (env : Env) (si : SortInfo)
    (cits : List (Citation α)) :
    List.Perm (sortPairs env si cits) cits.enum ∧
    (sortPairs env si cits).Pairwise (keyLT env si) ∧
    (sortPairs env si cits).Pairwise (fun p q =>
      localeGroup si p.2.id = localeGroup si q.2.id →
      authorOf env si p.2.id = authorOf env si q.2.id →
      yearOf si p.2.id = yearOf si q.2.id →
      titleOf env si p.2.id = titleOf env si q.2.id → p.1 < q.1) ∧
    ∀ t, List.Perm t cits.enum → t.Pairwise (keyLE env si) → t = sortPairs env si cits := by
  have hperm := sortPairs_perm env si cits
  have hsorted := sortPairs_sorted env si cits
  have hlt : (sortPairs env si cits).Pairwise (keyLT env si) :=
    pairwise_lt_of_pairwise_le hsorted (nodup_fst_of_perm_enum hperm)
  refine ⟨hperm, hlt, ?_, ?_⟩
  · refine hlt.imp ?_
    intro p q hpq hg ha hy ht2
    unfold keyLT pairKey at hpq
    rw [sort_key_eq, sort_key_eq, hg, ha, hy, ht2, mkKey_lt_mkKey] at hpq
    simpa using hpq
  · intro t ht hple
    have hlt2 : t.Pairwise (keyLT env si) :=
      pairwise_lt_of_pairwise_le hple (nodup_fst_of_perm_enum ht)
    exact List.eq_of_perm_of_sorted (ht.trans hperm.symm) hlt2 hlt

/-- C4: a citation id absent from the sort information receives
exactly the key (group 0, normalized id, sentinel year 9999,
normalized id, original position), and the reorderer keeps every
reference of every cluster (the multiset of ids is preserved), raising
no error. -/
theorem c4_unknown_id_fallback {α : Type} (env : Env) (si : SortInfo) (cid : String) (i : Nat)
    (h : List.lookup cid si = none) :
    sort_key env si cid i = mkKey 0 (normalize env cid) 9999 (normalize env cid) i ∧
    ∀ el : Cite α, List.Perm ((action env si el).citations.map (fun c => c.id))
      (el.citations.map (fun c => c.id)) := by
  constructor
  · unfold sort_key
    rw [h]
  · intro el
    by_cases hlen : el.citations.length < 2
    · rw [show action env si el = el from by simp only [action, if_pos hlen]]
    · have h2 : 2 ≤ el.citations.length := Nat.not_lt.mp hlen
      rw [action_eq_sort env si el h2, show (⟨restorePfx (detach el.citations).1
          ((sortPairs env si (detach el.citations).2).map (fun p => p.2))⟩ : Cite α).citations =
          restorePfx (detach el.citations).1
          ((sortPairs env si (detach el.citations).2).map (fun p => p.2)) from rfl,
        restorePfx_ids, List.map_map]
      have hp : List.Perm
          ((sortPairs env si (detach el.citations).2).map (fun p => p.2.id))
          ((detach el.citations).2.enum.map (fun p => p.2.id)) :=
        (sortPairs_perm env si (detach el.citations).2).map _
      have he : ((detach el.citations).2.enum.map (fun p : Nat × Citation α => p.2.id)) =
          el.citations.map (fun c => c.id) := by
        rw [show (fun p : Nat × Citation α => p.2.id) =
            (fun c : Citation α => c.id) ∘ Prod.snd from rfl, ← List.map_map,
          List.enum_map_snd, detach_snd_ids]
      rw [← he]
      exact hp

/-- C8: a cluster with fewer than two references is returned exactly
as it came in, including every reference's own leading and trailing
inline content. -/
theorem c8_small_cluster_unchanged {α : Type} (env : Env) (si : SortInfo) (el : Cite α)
    (h : el.citations.length < 2) : action env si el = el := by
  simp only [action, if_pos h]

/-- C5 counterexample: a date field holding a plain integer is not
recognized by extract_year, which returns the sentinel instead of the
integer the claim promises. -/
theorem c5_plain_int_cex :
    extract_year [("issued", JVal.int 2018)] = 9999 ∧
    extract_year [("issued", JVal.int 2018)] ≠ 2018 := by
  decide

/-- C5 amended: extract_year takes the date-like fields in priority
order starting with issued, handles structured date-parts and literal
strings via the first four-digit run, yields the sentinel 9999 when no
field determines a year, and does not recognize a date field that is a
plain integer. -/
theorem c5_extract_year_amended :
    extract_year
      [("issued", JVal.obj [("date-parts", JVal.list [JVal.list [JVal.int 2018, JVal.int 5]])])]
      = 2018 ∧
    extract_year [("year", JVal.str "circa 1990s")] = 1990 ∧
    extract_year [("title", JVal.str "no date fields")] = 9999 ∧
    (∀ i : Int, extract_year [("issued", JVal.int i)] = 9999) ∧
    (∀ entry y, from_obj ((jget entry "issued").getD JVal.null) = some y → y ≠ 0 →
      extract_year entry = y) := by
  refine ⟨by decide, by decide, by decide, ?_, ?_⟩
  · intro i
    rfl
  · intro entry y h hy
    simp [extract_year, firstTruthyYear, h, hy]

/-- C6: when the first character of the input is in the surname
exception table and has a nonempty default reading, to_pinyin replaces
the leading syllable of the concatenated readings by the table
override and leaves the readings of the remaining characters
unchanged. -/
theorem c6_surname_override (env : Env) (text : String) (c0 : Char) (cs : List Char)
    (hdata : text.data = c0 :: cs) (ov : String)
    (hov : List.lookup c0 SURNAME_MAP = some ov)
    (hrc : env.readChar c0 ≠ "") :
    to_pinyin env text = ov ++ concatReadings env cs := by
  have htext_eq : text = String.mk (c0 :: cs) := by
    rw [← hdata]
  have hmkne : (String.mk (c0 :: cs) : String) ≠ "" := by
    intro h
    exact List.noConfusion (congrArg String.data h)
  have hne2 : concatReadings env (c0 :: cs) ≠ "" := by
    intro h
    apply hrc
    have hd := congrArg String.data h
    rw [show concatReadings env (c0 :: cs) = env.readChar c0 ++ concatReadings env cs from rfl,
      String.data_append] at hd
    exact String.ext (List.append_eq_nil.mp hd).1
  rw [htext_eq]
  simp only [to_pinyin, if_neg hmkne]
  rw [if_neg hne2, hov]
  dsimp only
  rw [if_neg hrc]
  congr 1
  rw [show concatReadings env (c0 :: cs) = env.readChar c0 ++ concatReadings env cs from rfl,
    String.data_append,
    show (env.readChar c0).length = (env.readChar c0).data.length from rfl,
    List.drop_left]

/-- Modelled from the spec: the family-name-first convention of
section 4.3 step 1, taking only the substring before the first comma.
This definition follows the words of the specification and is used to
compare the specified comma behaviour with the implemented one. -/
def specBeforeComma (text : String) : String :=
  String.mk (text.data.takeWhile (fun c => c != ','))

/-- The default environment used in counterexamples: the identity
Unicode primitives and a reading table with the default reading of the
surname 单. -/
def envA : Env :=
  ⟨id, fun _ => false, Char.isWhitespace,
   fun s => String.mk (s.data.map Char.toLower),
   fun c => if c = '单' then "dan1" else ""⟩

/-- A reading table for the witnesses, with readings for 张, 单 and 伟. -/
def envB : Env :=
  ⟨id, fun _ => false, Char.isWhitespace,
   fun s => String.mk (s.data.map Char.toLower),
   fun c =>
     if c = '张' then "zhang1"
     else if c = '单' then "dan1"
     else if c = '伟' then "wei3" else ""⟩

/-- C7 counterexample: to_pinyin does not restrict itself to the
substring before the first comma; a character after the comma
contributes its reading to the key. -/
theorem c7_comma_cex :
    ¬ (to_pinyin envA "单,单" = to_pinyin envA (specBeforeComma "单,单")) := by
  decide

/-- C7 amended: to_pinyin performs no comma splitting: the whole
string is transliterated, and characters after the first comma
contribute their readings to the key (the comma itself contributes
only its own reading, which is empty for the actual library). -/
theorem c7_whole_string (env : Env) (c0 : Char) (cs post : List Char)
    (hns : List.lookup c0 SURNAME_MAP = none)
    (hj : concatReadings env ((c0 :: cs) ++ ',' :: post) ≠ "") :
    to_pinyin env (String.mk ((c0 :: cs) ++ ',' :: post)) =
      concatReadings env ((c0 :: cs) ++ ',' :: post) := by
  have hmkne : (String.mk ((c0 :: cs) ++ ',' :: post) : String) ≠ "" := by
    intro h
    have hd := congrArg String.data h
    rw [List.cons_append] at hd
    exact List.noConfusion hd
  rw [List.cons_append] at hj hmkne ⊢
  simp only [to_pinyin, if_neg hmkne]
  rw [if_neg hj, hns]

/-- The skip conditions of the path loop: empty configured path,
non-existent resolved path, no json suffix, or unreadable or
unparseable contents. -/
def skippedPath (fs : FS) (raw : String) : Bool :=
  (raw == "") || !fs.pathExists (fs.resolve raw) ||
    !hasJsonSuffix (fs.resolve raw) || (fs.read (fs.resolve raw)).isNone

theorem processPath_ok_of_bad (fs : FS) (keep : List String) (p : String)
    (hbad : fs.pathExists (fs.resolve p) = false ∨ fs.read (fs.resolve p) = none) :
    ∀ es, processPath fs keep es p = .ok es := by
  intro es
  simp only [processPath]
  by_cases hpe : p = ""
  · rw [if_pos hpe]
  · rw [if_neg hpe]
    rcases hbad with h | h
    · have hc : (!fs.pathExists (fs.resolve p) || !hasJsonSuffix (fs.resolve p)) = true := by
        rw [h]
        rfl
      rw [if_pos hc]
    · split
      · rfl
      · rw [h]

theorem processPath_ok_of_nonjson (fs : FS) (keep : List String) (p : String)
    (hj : hasJsonSuffix (fs.resolve p) = false) :
    ∀ es, processPath fs keep es p = .ok es := by
  intro es
  simp only [processPath]
  by_cases hpe : p = ""
  · rw [if_pos hpe]
  · rw [if_neg hpe]
    have hc : (!fs.pathExists (fs.resolve p) || !hasJsonSuffix (fs.resolve p)) = true := by
      rw [hj]
      simp
    rw [if_pos hc]

theorem processPath_ok_of_skipped (fs : FS) (keep : List String) (p : String)
    (h : skippedPath fs p = true) : ∀ es, processPath fs keep es p = .ok es := by
  intro es
  simp only [skippedPath, Bool.or_eq_true, beq_iff_eq, Bool.not_eq_true',
    Option.isNone_iff_eq_none] at h
  rcases h with ((h | h) | h) | h
  · simp only [processPath, if_pos h]
  · exact processPath_ok_of_bad fs keep p (Or.inl h) es
  · exact processPath_ok_of_nonjson fs keep p h es
  · exact processPath_ok_of_bad fs keep p (Or.inr h) es

theorem loadLoop_drop (fs : FS) (keep : List String) (p : String)
    (hok : ∀ es, processPath fs keep es p = .ok es) :
    ∀ pre post es, loadLoop fs keep (pre ++ p :: post) es = loadLoop fs keep (pre ++ post) es := by
  intro pre
  induction pre with
  | nil =>
    intro post es
    simp only [List.nil_append, loadLoop, hok es]
  | cons q qs ih =>
    intro post es
    simp only [List.cons_append, loadLoop]
    cases processPath fs keep es q with
    | error e => rfl
    | ok es' => exact ih post es'

theorem loadLoop_all_skipped (fs : FS) (keep : List String) :
    ∀ paths, (∀ q ∈ paths, skippedPath fs q = true) →
      ∀ es, loadLoop fs keep paths es = .ok es := by
  intro paths
  induction paths with
  | nil => intro _ es; rfl
  | cons q qs ih =>
    intro h es
    simp only [loadLoop, processPath_ok_of_skipped fs keep q (h q (List.mem_cons_self q qs)) es]
    exact ih (fun r hr => h r (List.mem_cons_of_mem q hr)) es

/-- C9: a configured bibliography path that does not exist, or whose
contents cannot be read or parsed, contributes no entries: removing it
from the path list leaves the loader result unchanged (the loader
continues with the remaining paths), and when every path is skipped
the loader returns the empty mapping rather than raising. -/
theorem c9_loader_never_raises (fs : FS) (keep : List String) (pre post : List String)
    (p : String)
    (hbad : fs.pathExists (fs.resolve p) = false ∨ fs.read (fs.resolve p) = none) :
    load_entries fs (pre ++ p :: post) keep = load_entries fs (pre ++ post) keep ∧
    ((∀ q ∈ pre ++ p :: post, skippedPath fs q = true) →
      load_entries fs (pre ++ p :: post) keep = .ok []) := by
  constructor
  · exact loadLoop_drop fs keep p (processPath_ok_of_bad fs keep p hbad) pre post []
  · intro hall
    exact loadLoop_all_skipped fs keep (pre ++ p :: post) hall []

/-- C10: a configured path whose resolved name does not end in a json
suffix (case-insensitively) is silently skipped even when it exists
and holds a well-formed record list: it contributes no entries and
raises no error. -/
theorem c10_nonjson_skipped (fs : FS) (keep : List String) (pre post : List String)
    (p : String) (recs : List JVal)
    (hjson : hasJsonSuffix (fs.resolve p) = false)
    (hex : fs.pathExists (fs.resolve p) = true)
    (hread : fs.read (fs.resolve p) = some (JVal.list recs)) :
    load_entries fs (pre ++ p :: post) keep = load_entries fs (pre ++ post) keep :=
  loadLoop_drop fs keep p (processPath_ok_of_nonjson fs keep p hjson) pre post []

/-! ### Concrete data for the witnesses -/

/-- Sort information for a small bibliography: one Chinese entry and
one non-Chinese entry. -/
def siW : SortInfo :=
  [("zhang2020", (true, "zhang1wei3", 2020, "lun4wen2")),
   ("smith2019", (false, "smith john", 2019, "a title"))]

/-- A two-reference cluster whose first reference is the Chinese entry
and carries leading inline content. -/
def elW : Cite String :=
  ⟨[⟨"zhang2020", ["see"], []⟩, ⟨"smith2019", [], ["p. 23"]⟩]⟩

/-- The first reference used in the cluster-level content witness. -/
def cW : Citation String := ⟨"zhang2020", ["see"], []⟩

/-- The remaining references used in the cluster-level content witness. -/
def rW : List (Citation String) := [⟨"smith2019", [], ["p. 23"]⟩]

/-- A single-reference cluster. -/
def elSmall : Cite String := ⟨[⟨"solo", ["cf."], ["p. 7"]⟩]⟩

/-- A filesystem on which every path is missing and unreadable. -/
def fsA : FS := ⟨id, fun _ => false, fun _ => none⟩

/-- A filesystem on which every path exists and parses to a
well-formed one-record list. -/
def fsB : FS := ⟨id, fun _ => true, fun _ => some (JVal.list [JVal.obj [("id", JVal.str "x")]])⟩

/-! ### Witnesses -/

/-- Witness for C1 at a concrete two-reference cluster. -/
theorem c1_witness :
    ∃ l0 l1, (action envB siW elW).citations = l0 ++ l1 ∧
      (∀ c ∈ l0, localeGroup siW c.id = 0) ∧ (∀ c ∈ l1, localeGroup siW c.id = 1) :=
  c1_nonChinese_before_chinese envB siW elW (by decide)

/-- Witness for C2 at a concrete two-reference cluster. -/
theorem c2_witness :
    ∃ x t, (action envB siW ⟨{ cW with pfx := [] } :: rW⟩).citations = x :: t ∧
      ∀ p : List String, p ≠ [] →
        (action envB siW ⟨{ cW with pfx := p } :: rW⟩).citations =
          { x with pfx := p ++ x.pfx } :: t :=
  c2_cluster_level_content envB siW cW rW (List.cons_ne_nil _ _)

/-- Witness for C3 at a concrete cluster. -/
theorem c3_witness :
    List.Perm (sortPairs envB siW elW.citations) elW.citations.enum :=
  (c3_stable_total_deterministic envB siW elW.citations).1

/-- Witness for C4 at an id absent from the sort information. -/
theorem c4_witness :
    sort_key envB siW "unknown99" 1 =
      mkKey 0 (normalize envB "unknown99") 9999 (normalize envB "unknown99") 1 :=
  (c4_unknown_id_fallback (α := String) envB siW "unknown99" 1 (by decide)).1

/-- Witness for C5 at a concrete plain-integer date field. -/
theorem c5_witness : extract_year [("issued", JVal.int 7)] = 9999 :=
  c5_extract_year_amended.2.2.2.1 7

/-- Witness for C6 at a concrete surname-initial name. -/
theorem c6_witness : to_pinyin envB "单伟" = "shan4" ++ concatReadings envB ['伟'] :=
  c6_surname_override envB "单伟" '单' ['伟'] (by decide) "shan4" (by decide) (by decide)

/-- Witness for the amended C7 at a concrete comma-bearing name. -/
theorem c7_witness :
    to_pinyin envB (String.mk (('张' :: []) ++ ',' :: ['单'])) =
      concatReadings envB (('张' :: []) ++ ',' :: ['单']) :=
  c7_whole_string envB '张' [] ['单'] (by decide) (by decide)

/-- Witness for C8 at a concrete single-reference cluster. -/
theorem c8_witness : action envB siW elSmall = elSmall :=
  c8_small_cluster_unchanged envB siW elSmall (by decide)

/-- Witness for C9 at a concrete path list with a missing path. -/
theorem c9_witness :
    load_entries fsA (["a.json"] ++ "missing.json" :: ["b.json"]) [] =
      load_entries fsA (["a.json"] ++ ["b.json"]) [] ∧
    ((∀ q ∈ ["a.json"] ++ "missing.json" :: ["b.json"], skippedPath fsA q = true) →
      load_entries fsA (["a.json"] ++ "missing.json" :: ["b.json"]) [] = .ok []) :=
  c9_loader_never_raises fsA [] ["a.json"] ["b.json"] "missing.json" (Or.inl rfl)

/-- Witness for C10 at a concrete non-json path on a filesystem where
the file exists and parses. -/
theorem c10_witness :
    load_entries fsB ([] ++ "refs.bib" :: ["main.json"]) ["x"] =
      load_entries fsB ([] ++ ["main.json"]) ["x"] :=
  c10_nonjson_skipped fsB ["x"] [] ["main.json"] "refs.bib"
    [JVal.obj [("id", JVal.str "x")]] (by decide) rfl rfl

end SortCitations
